import Mathlib

/-!
# Verification of `hirzel/file.h` (c-utils)

A shallow embedding of the single-header file utility library
`src/include/hirzel/file.h` and proofs about its behavior.

Modelling conventions:
* Bytes are `Nat` values in `0..255`; a C string is the list of its bytes up
  to (excluding) the terminating NUL, and buffers are `List Nat`.
* `FILE*` streams are modelled as the list of bytes remaining to be read;
  end-of-file is the empty list.  A possibly-NULL pointer is an `Option`.
* The filesystem is a function `String → Option (List Nat)` giving each
  path's content (`none` = the path cannot be opened for reading).
* `char` is modelled as signed 8-bit (the common ABI): `charOfByte` maps the
  byte `b` to `b` for `b < 128` and to `b - 256` otherwise, so byte `255`
  compares equal to `EOF = -1`.
* Every entry point additionally returns the list of file operations it
  performed, so that "no I/O was attempted" is a provable statement.
-/

namespace HxFile

/-- `strlen`/`fputs` view of a buffer: the bytes before the first NUL. -/
def cstr (buf : List Nat) : List Nat := buf.takeWhile (· ≠ 0)

/-- Value of the expression `(char)b` compared against `int` constants:
bytes `128..255` become negative; byte `255` equals `EOF = -1`. -/
def charOfByte (b : Nat) : Int := if b < 128 then (b : Int) else (b : Int) - 256

/-! ## `hxfile_read_lines` split logic

`hxfile_read_lines` reads the whole file, counts lines by scanning for
`'\n'`, then fills the output array with successive `strtok(·, "\n")`
tokens.  The pieces are modelled separately below. -/

/-- Number of `'\n'` bytes in the buffer (the `while (*pos)` counting loop). -/
def countNewlines (text : List Nat) : Nat := text.countP (· = 10)

/-- The line count computed by `hxfile_read_lines`: one per `'\n'`, plus one
for a non-empty trailing segment (`*(pos-1) != '\n' && pos > text`).  The
value of the out-of-bounds read `*(pos-1)` on an empty buffer does not affect
the count because `pos > text` is false there; the access itself is recorded
by `scanAccesses`. -/
def linec (text : List Nat) : Nat :=
  countNewlines text + (if text ≠ [] ∧ text.getLast? ≠ some 10 then 1 else 0)

/-- Indices (relative to `text`) read by the counting scan: the `while`
loop reads offsets `0 .. length` (including the NUL terminator), then the
trailing-line check reads `*(pos - 1)`, i.e. offset `length - 1` — which is
`-1` when the buffer is empty. -/
def scanAccesses (text : List Nat) : List Int :=
  ((List.range (text.length + 1)).map (fun i => (i : Int))) ++
    [(text.length : Int) - 1]

/-- An offset is within the allocated buffer (string of `length` bytes plus
its NUL terminator). -/
def idxInBounds (text : List Nat) (i : Int) : Prop :=
  0 ≤ i ∧ i < (text.length : Int) + 1

instance (text : List Nat) (i : Int) : Decidable (idxInBounds text i) := by
  unfold idxInBounds; infer_instance

/-- `strtok(text, "\n")` iterated to exhaustion: the non-empty maximal runs
of non-`'\n'` bytes, in order (`strtok` skips over consecutive delimiters
and never yields an empty token).  `cur` is the token accumulated so far,
in reverse. -/
def tokensAux (delim : Nat) : List Nat → List Nat → List (List Nat)
  | [], cur => if cur = [] then [] else [cur.reverse]
  | b :: rest, cur =>
      if b = delim then
        if cur = [] then tokensAux delim rest []
        else cur.reverse :: tokensAux delim rest []
      else tokensAux delim rest (b :: cur)

/-- All tokens produced by repeated `strtok` calls with a single delimiter. -/
def tokens (delim : Nat) (text : List Nat) : List (List Nat) :=
  tokensAux delim text []

/-- The output array built by `hxfile_read_lines`: `linec + 1` slots; slot 0
and slots `1 .. linec-1` receive successive `strtok` results (`none` models a
NULL entry once tokens run out), and slot `linec` is set to NULL. -/
def linesArray (text : List Nat) : List (Option (List Nat)) :=
  (List.range (linec text)).map (fun i => (tokens 10 text).get? i) ++ [none]

/-- Reading a NULL-terminated `char**` array: the entries before the first
NULL. -/
def nullTerminated (arr : List (Option (List Nat))) : List (List Nat) :=
  (arr.takeWhile Option.isSome).filterMap id

/-- The line sequence observable from `hxfile_read_lines`' result under the
library's NULL-terminated-array convention. -/
def readLinesSeq (text : List Nat) : List (List Nat) :=
  nullTerminated (linesArray text)

/-! ## `hxfile_read_line` stream loop

The do/while loop reads chunks with `fgets(buf, 128, stream)` into a 128-byte
buffer, appends `strlen(buf)` bytes to the growing line, and continues while
`buf[126]` is neither `0` nor `'\n'`.  `buf[126]` is zeroed before each
`fgets`; when `fgets` hits end-of-file having read nothing, it leaves the
buffer unchanged (C11 7.21.7.2), which the model reproduces. -/

/-- Bytes consumed by one `fgets` call with room for `n` data bytes: stop
after `n` bytes or after the first `'\n'`, whichever comes first. -/
def takeLine : Nat → List Nat → List Nat
  | 0, _ => []
  | _, [] => []
  | n + 1, b :: rest => if b = 10 then [10] else b :: takeLine n rest

/-- The chunk buffer after `fgets(buf, 128, s)` where `buf0` is the buffer
beforehand: on a read, the bytes read plus a NUL terminator overwrite the
front; at end-of-stream with nothing read the buffer is unchanged. -/
def fgetsBuf (buf0 : List Nat) (s : List Nat) : List Nat :=
  match s with
  | [] => buf0
  | _ :: _ => takeLine 127 s ++ [0] ++ buf0.drop ((takeLine 127 s).length + 1)

/-- Stream remaining after `fgets(buf, 128, s)`. -/
def fgetsRest (s : List Nat) : List Nat :=
  match s with
  | [] => []
  | _ :: _ => s.drop (takeLine 127 s).length

/-- The flag byte `buf[126]` tested by the loop condition. -/
def flag (buf : List Nat) : Nat := buf.getD 126 0

/-- The accumulation loop of `hxfile_read_line`.  One fuel unit per
iteration; every continuing iteration consumes 127 stream bytes, so
`s.length + 1` fuel (used by `hxfile_read_line`) always suffices. -/
def readLineLoop : Nat → List Nat → List Nat → List Nat → List Nat
  | 0, _, line, _ => line
  | fuel + 1, buf, line, s =>
      let buf1 := fgetsBuf (buf.set 126 0) s
      let line1 := line ++ cstr buf1
      if flag buf1 ≠ 0 ∧ flag buf1 ≠ 10 then
        readLineLoop fuel buf1 line1 (fgetsRest s)
      else line1

/-- `hxfile_read_line(FILE *stream)`: NULL stream check, then
`char c = getc(stream); if (c == EOF) return NULL; ungetc(c, stream);`,
then the chunk loop starting from an uninitialized 128-byte buffer (no byte
of which is observed before being written, so zeros model it). -/
def hxfile_read_line (stream : Option (List Nat)) : Option (List Nat) :=
  match stream with
  | none => none
  | some s =>
      match s with
      | [] => none
      | b :: _ =>
          if charOfByte b = -1 then none
          else some (readLineLoop (s.length + 1) (List.replicate 128 0) [] s)

/-! ## Whole-file read and write -/

/-- A file operation attempted by an entry point. -/
inductive FileOp
  | fopen (path : String) (mode : String)
  | fread (path : String)
  | fwrite (path : String)
  | fclose (path : String)
deriving DecidableEq

/-- Possible outcomes of the internal `read` helper. -/
inductive ReadResult
  | nullArg
  | openFail
  | ok (content : List Nat)
  | ub
deriving DecidableEq

/-- The internal `read(filepath, options)` helper: NULL checks, `fopen`,
size via `fseek`/`ftell`, `malloc(size + 1)`, `fread`, NUL-terminate,
`fclose`.  The result of `malloc` is never tested: when allocation fails
the code executes `fread(NULL, …)` and `str[readc] = 0`, which is undefined
behavior — modelled by `ReadResult.ub`. -/
def readModel (filepath : Option String) (mode : String)
    (fs : String → Option (List Nat)) (allocOk : Bool) :
    ReadResult × List FileOp :=
  match filepath with
  | none => (.nullArg, [])
  | some p =>
      match fs p with
      | none => (.openFail, [.fopen p mode])
      | some content =>
          if allocOk then (.ok content, [.fopen p mode, .fread p, .fclose p])
          else (.ub, [.fopen p mode])

/-- `hxfile_read`: text mode. -/
def hxfile_read (filepath : Option String) (fs : String → Option (List Nat))
    (allocOk : Bool) : ReadResult × List FileOp :=
  readModel filepath "r" fs allocOk

/-- `hxfile_read_raw`: binary mode. -/
def hxfile_read_raw (filepath : Option String)
    (fs : String → Option (List Nat)) (allocOk : Bool) :
    ReadResult × List FileOp :=
  readModel filepath "rb" fs allocOk

/-- The internal `write(filepath, text, options)` helper: NULL checks,
`fopen`, `fputs`, `fclose`.  `fputs` writes the C string content of `text`
(bytes before the first NUL).  Modes `"a"`/`"ab"` append to existing
content; the write modes truncate.  `writable p` tells whether `fopen` for
writing succeeds at `p`. -/
def writeModel (filepath : Option String) (text : Option (List Nat))
    (mode : String) (writable : String → Bool)
    (fs : String → Option (List Nat)) :
    (Bool × (String → Option (List Nat))) × List FileOp :=
  match filepath, text with
  | none, _ => ((false, fs), [])
  | some _, none => ((false, fs), [])
  | some p, some t =>
      if writable p then
        let old := if mode = "a" ∨ mode = "ab" then (fs p).getD [] else []
        ((true, fun q => if q = p then some (old ++ cstr t) else fs q),
          [.fopen p mode, .fwrite p, .fclose p])
      else ((false, fs), [.fopen p mode])

/-- `hxfile_write`. -/
def hxfile_write (filepath : Option String) (text : Option (List Nat))
    (writable : String → Bool) (fs : String → Option (List Nat)) :
    (Bool × (String → Option (List Nat))) × List FileOp :=
  writeModel filepath text "w" writable fs

/-- `hxfile_write_raw`. -/
def hxfile_write_raw (filepath : Option String) (text : Option (List Nat))
    (writable : String → Bool) (fs : String → Option (List Nat)) :
    (Bool × (String → Option (List Nat))) × List FileOp :=
  writeModel filepath text "wb" writable fs

/-- `hxfile_append`. -/
def hxfile_append (filepath : Option String) (text : Option (List Nat))
    (writable : String → Bool) (fs : String → Option (List Nat)) :
    (Bool × (String → Option (List Nat))) × List FileOp :=
  writeModel filepath text "a" writable fs

/-- `hxfile_append_raw`. -/
def hxfile_append_raw (filepath : Option String) (text : Option (List Nat))
    (writable : String → Bool) (fs : String → Option (List Nat)) :
    (Bool × (String → Option (List Nat))) × List FileOp :=
  writeModel filepath text "ab" writable fs

/-- `hxfile_read_lines(filepath)`: read the whole file in text mode, then
split.  Modelled with successful allocation (`allocOk := true`), so the
`ub` arm is unreachable. -/
def hxfile_read_lines (filepath : Option String)
    (fs : String → Option (List Nat)) :
    Option (List (List Nat)) × List FileOp :=
  match hxfile_read filepath fs true with
  | (ReadResult.ok text, eff) => (some (readLinesSeq text), eff)
  | (_, eff) => (none, eff)

/-- Loop invariant on the chunk buffer: the C string that would be read out
of the buffer after the pre-`fgets` reset `buf[126] = 0` contains no
newline.  It holds for the initial buffer and is preserved by every
continuing iteration, and it is what bounds the stale bytes re-appended by
an `fgets` that read nothing. -/
def goodBuf (buf : List Nat) : Prop := 10 ∉ cstr (buf.set 126 0)

end HxFile

namespace HxFile

/-! ## Helper lemmas -/

theorem mem_of_mem_cstr {a : Nat} {l : List Nat} (h : a ∈ cstr l) : a ∈ l := by
  have hl : cstr l ++ l.dropWhile (· ≠ 0) = l :=
    List.takeWhile_append_dropWhile _ _
  rw [← hl]
  exact List.mem_append_left _ h

theorem cstr_append_zero (r z : List Nat) : cstr (r ++ 0 :: z) = cstr r := by
  induction r with
  | nil => simp [cstr]
  | cons b t ih =>
    by_cases hb : b = 0
    · simp [cstr, List.takeWhile_cons, hb]
    · simp [cstr, List.takeWhile_cons, hb] at ih ⊢
      exact ih

theorem cstr_eq_self {r : List Nat} (h0 : 0 ∉ r) : cstr r = r := by
  unfold cstr
  rw [List.takeWhile_eq_self_iff]
  intro x hx
  have hx0 : x ≠ 0 := fun he => h0 (he ▸ hx)
  simp [hx0]

/-- `fgets` stops right after a newline, so a chunk contains `'\n'` only as
its final byte, if at all. -/
theorem takeLine_newline_cases (n : Nat) (s : List Nat) :
    10 ∉ takeLine n s ∨ ∃ l, takeLine n s = l ++ [10] ∧ 10 ∉ l := by
  induction s generalizing n with
  | nil => cases n <;> simp [takeLine]
  | cons b rest ih =>
    cases n with
    | zero => simp [takeLine]
    | succ m =>
      by_cases hb : b = 10
      · exact Or.inr ⟨[], by simp [takeLine, hb], by simp⟩
      · rcases ih m with h | ⟨l, hl, hl10⟩
        · refine Or.inl ?_
          simp only [takeLine, hb, if_false, List.mem_cons]
          rintro (he | hm)
          · exact hb he.symm
          · exact h hm
        · refine Or.inr ⟨b :: l, ?_, ?_⟩
          · simp [takeLine, hb, hl]
          · simp only [List.mem_cons]
            rintro (he | hm)
            · exact hb he.symm
            · exact hl10 hm

theorem takeLine_append_newline {pre : List Nat} (post : List Nat) {n : Nat}
    (h10 : 10 ∉ pre) (hlen : pre.length < n) :
    takeLine n (pre ++ 10 :: post) = pre ++ [10] := by
  induction pre generalizing n with
  | nil =>
    cases n with
    | zero => exact absurd hlen (by simp)
    | succ m => simp [takeLine]
  | cons a t ih =>
    cases n with
    | zero => exact absurd hlen (by omega)
    | succ m =>
      have ha : a ≠ 10 := fun he => h10 (he ▸ List.mem_cons_self a t)
      have ht : 10 ∉ t := fun hm => h10 (List.mem_cons_of_mem a hm)
      simp only [List.cons_append, takeLine, ha, if_false]
      simp only [List.length_cons, Nat.succ_lt_succ_iff] at hlen
      simp [ih ht hlen]

theorem takeLine_eq_take {pre : List Nat} (z : List Nat) {n : Nat}
    (h10 : 10 ∉ pre) (hlen : n ≤ pre.length) :
    takeLine n (pre ++ z) = pre.take n := by
  induction n generalizing pre with
  | zero => cases pre <;> cases z <;> simp [takeLine]
  | succ m ih =>
    cases pre with
    | nil => simp at hlen
    | cons a t =>
      have ha : a ≠ 10 := fun he => h10 (he ▸ List.mem_cons_self a t)
      have ht : 10 ∉ t := fun hm => h10 (List.mem_cons_of_mem a hm)
      simp only [List.length_cons, Nat.succ_le_succ_iff] at hlen
      simp [takeLine, ha, List.take_succ_cons, ih ht hlen]

theorem charOfByte_eq_neg_one_iff (b : Nat) : charOfByte b = -1 ↔ b = 255 := by
  unfold charOfByte
  split <;> omega

theorem flag_set126 (buf : List Nat) : flag (buf.set 126 0) = 0 := by
  unfold flag
  rcases Nat.lt_or_ge 126 buf.length with h | h
  · simp [List.getElem?_set_eq_of_lt 0 h]
  · rw [List.set_eq_of_length_le h]
    simp [List.getElem?_eq_none h]

/-- When a chunk holds at most 126 data bytes, the flag byte `buf[126]` is
zero after `fgets`: it is either the chunk's NUL terminator or the byte that
the pre-read reset `buf[126] = 0` wrote. -/
theorem flag_append_short {r : List Nat} (buf : List Nat) (h : r.length ≤ 126) :
    flag (r ++ [0] ++ (buf.set 126 0).drop (r.length + 1)) = 0 := by
  unfold flag
  rw [List.append_assoc, List.getD_eq_getElem?_getD,
    List.getElem?_append_right (by omega)]
  rcases Nat.eq_or_lt_of_le h with he | hlt
  · rw [← he]
    simp
  · rw [List.getElem?_append_right (by simp; omega), List.getElem?_drop]
    have harith : r.length + 1 + (126 - r.length - 1) = 126 := by omega
    rw [List.length_singleton, harith]
    rcases Nat.lt_or_ge 126 buf.length with hb | hb
    · simp [List.getElem?_set_eq_of_lt 0 hb]
    · rw [List.set_eq_of_length_le hb]
      simp [List.getElem?_eq_none hb]

/-- When the chunk filled all 127 data bytes, the flag byte is the chunk's
byte 126. -/
theorem flag_append_full {r : List Nat} (z : List Nat) (h : r.length = 127) :
    flag (r ++ z) = r.getD 126 0 := by
  unfold flag
  rw [List.getD_eq_getElem?_getD, List.getD_eq_getElem?_getD,
    List.getElem?_append_left (by omega)]

/-- Whole-file read at a readable path with successful allocation. -/
theorem readModel_ok (p mode : String) (fs : String → Option (List Nat))
    (content : List Nat) (hfs : fs p = some content) :
    readModel (some p) mode fs true =
      (ReadResult.ok content,
        [FileOp.fopen p mode, FileOp.fread p, FileOp.fclose p]) := by
  have hstep : readModel (some p) mode fs true =
      (match fs p with
        | none => (ReadResult.openFail, [FileOp.fopen p mode])
        | some c =>
          (ReadResult.ok c,
            [FileOp.fopen p mode, FileOp.fread p, FileOp.fclose p])) := rfl
  rw [hstep, hfs]

/-- One loop iteration at end-of-stream: `fgets` reads nothing and leaves
the buffer unchanged, so the stale C string (with `buf[126]` zeroed) is
appended and the loop stops. -/
theorem readLineLoop_succ_nil (fuel : Nat) (buf line : List Nat) :
    readLineLoop (fuel + 1) buf line [] = line ++ cstr (buf.set 126 0) := by
  have h : readLineLoop (fuel + 1) buf line [] =
      if flag (buf.set 126 0) ≠ 0 ∧ flag (buf.set 126 0) ≠ 10 then
        readLineLoop fuel (buf.set 126 0) (line ++ cstr (buf.set 126 0)) []
      else line ++ cstr (buf.set 126 0) := rfl
  rw [h, if_neg (by simp [flag_set126 buf])]

/-- One loop iteration on a non-empty stream, with the chunk read and the
resulting buffer named. -/
theorem readLineLoop_succ_eq (fuel : Nat) (buf line s r buf1 : List Nat)
    (hs : s ≠ []) (hr : takeLine 127 s = r)
    (hbuf1 : r ++ [0] ++ (buf.set 126 0).drop (r.length + 1) = buf1) :
    readLineLoop (fuel + 1) buf line s =
      if flag buf1 ≠ 0 ∧ flag buf1 ≠ 10 then
        readLineLoop fuel buf1 (line ++ cstr buf1) (s.drop r.length)
      else line ++ cstr buf1 := by
  subst hr
  subst hbuf1
  cases s with
  | nil => exact absurd rfl hs
  | cons b t => rfl

/-- Core lemma for the newline-terminated case: fed a stream whose first
line is `pre ++ [10]` with `pre` free of newline and NUL bytes, the loop
appends exactly that line (given one fuel unit per 127-byte chunk, which
`pre.length < fuel` amply provides). -/
theorem readLineLoop_newline (fuel : Nat) :
    ∀ (pre post buf line : List Nat), 10 ∉ pre → 0 ∉ pre →
      pre.length < fuel →
      readLineLoop fuel buf line (pre ++ 10 :: post) = line ++ (pre ++ [10]) := by
  induction fuel with
  | zero => exact fun pre _ _ _ _ _ hlen => absurd hlen (Nat.not_lt_zero _)
  | succ fuel ih =>
    intro pre post buf line h10 h0 hlen
    have hsne : pre ++ 10 :: post ≠ [] := by simp
    by_cases hc : pre.length ≤ 126
    · -- the chunk reaches the newline and the loop stops
      have hr : takeLine 127 (pre ++ 10 :: post) = pre ++ [10] :=
        takeLine_append_newline post h10 (by omega)
      have h0r : 0 ∉ pre ++ [10] := by
        intro hm
        rcases List.mem_append.mp hm with hm | hm
        · exact h0 hm
        · simp at hm
      set buf1 := (pre ++ [10]) ++ [0] ++
        ((buf.set 126 0).drop ((pre ++ [10]).length + 1)) with hbuf1
      rw [readLineLoop_succ_eq fuel buf line _ _ buf1 hsne hr hbuf1.symm]
      have hcstr : cstr buf1 = pre ++ [10] := by
        rw [hbuf1, List.append_assoc (pre ++ [10]) [0] _]
        exact (cstr_append_zero _ _).trans (cstr_eq_self h0r)
      have hflag : ¬(flag buf1 ≠ 0 ∧ flag buf1 ≠ 10) := by
        rcases Nat.lt_or_ge pre.length 126 with hlt | hge
        · have hz : flag buf1 = 0 := by
            rw [hbuf1]
            exact flag_append_short buf (by simp; omega)
          simp [hz]
        · have h126 : pre.length = 126 := by omega
          have hten : flag buf1 = 10 := by
            rw [hbuf1, List.append_assoc (pre ++ [10]) [0] _,
              flag_append_full _ (by simp [h126])]
            rw [List.getD_eq_getElem?_getD,
              List.getElem?_append_right (by simp [h126])]
            simp [h126]
          simp [hten]
      rw [if_neg hflag, hcstr]
    · -- a full 127-byte chunk without newline: the loop continues
      push_neg at hc
      have hr : takeLine 127 (pre ++ 10 :: post) = pre.take 127 :=
        takeLine_eq_take _ h10 (by omega)
      have hlen127 : (pre.take 127).length = 127 := by simp; omega
      have h0take : 0 ∉ pre.take 127 := fun hm => h0 (List.mem_of_mem_take hm)
      have h10take : 10 ∉ pre.take 127 :=
        fun hm => h10 (List.mem_of_mem_take hm)
      set buf1 := pre.take 127 ++ [0] ++
        ((buf.set 126 0).drop ((pre.take 127).length + 1)) with hbuf1
      rw [readLineLoop_succ_eq fuel buf line _ _ buf1 hsne hr hbuf1.symm]
      have hcstr : cstr buf1 = pre.take 127 := by
        rw [hbuf1, List.append_assoc]
        exact (cstr_append_zero _ _).trans (cstr_eq_self h0take)
      have hmem : (pre.take 127).getD 126 0 ∈ pre.take 127 := by
        rw [List.getD_eq_getElem?_getD,
          List.getElem?_eq_getElem (by omega : 126 < (pre.take 127).length)]
        exact List.getElem_mem _
      have hcond : flag buf1 ≠ 0 ∧ flag buf1 ≠ 10 := by
        have hf : flag buf1 = (pre.take 127).getD 126 0 := by
          rw [hbuf1, List.append_assoc]
          exact flag_append_full _ hlen127
        rw [hf]
        exact ⟨fun he => h0take (he ▸ hmem), fun he => h10take (he ▸ hmem)⟩
      rw [if_pos hcond, hcstr]
      have hsplit : pre ++ 10 :: post =
          pre.take 127 ++ (pre.drop 127 ++ 10 :: post) := by
        rw [← List.append_assoc, List.take_append_drop]
      have hdrop : (pre ++ 10 :: post).drop (pre.take 127).length =
          pre.drop 127 ++ 10 :: post := by
        rw [hsplit, List.drop_left]
      rw [hdrop]
      have h10drop : 10 ∉ pre.drop 127 := fun hm => h10 (List.mem_of_mem_drop hm)
      have h0drop : 0 ∉ pre.drop 127 := fun hm => h0 (List.mem_of_mem_drop hm)
      have hlendrop : (pre.drop 127).length < fuel := by simp; omega
      rw [ih (pre.drop 127) post buf1 (line ++ pre.take 127) h10drop h0drop
        hlendrop]
      rw [List.append_assoc, ← List.append_assoc (pre.take 127),
        List.take_append_drop]

theorem takeLine_length_le (n : Nat) (s : List Nat) :
    (takeLine n s).length ≤ n := by
  induction s generalizing n with
  | nil => cases n <;> simp [takeLine]
  | cons b rest ih =>
    cases n with
    | zero => simp [takeLine]
    | succ m =>
      by_cases hb : b = 10
      · simp [takeLine, hb]
      · simp only [takeLine, hb, if_false, List.length_cons]
        exact Nat.succ_le_succ (ih m)

theorem mem_of_mem_dropLast {a : Nat} {l : List Nat} (h : a ∈ l.dropLast) :
    a ∈ l :=
  (List.dropLast_sublist l).subset h

theorem mem_dropLast_append {a : Nat} {l₁ l₂ : List Nat}
    (h : a ∈ (l₁ ++ l₂).dropLast) : a ∈ l₁ ∨ a ∈ l₂.dropLast := by
  cases hl : l₂ with
  | nil =>
    rw [hl, List.append_nil] at h
    exact Or.inl (mem_of_mem_dropLast h)
  | cons b t =>
    rw [hl, List.dropLast_append_cons] at h
    rcases List.mem_append.mp h with h | h
    · exact Or.inl h
    · exact Or.inr (hl ▸ h)

theorem cstr_append_of_zero_mem {l : List Nat} (z : List Nat) (h0 : 0 ∈ l) :
    cstr (l ++ z) = cstr l := by
  induction l with
  | nil => simp at h0
  | cons b t ih =>
    by_cases hb : b = 0
    · simp [cstr, List.takeWhile_cons, hb]
    · have h0t : 0 ∈ t := by
        rcases List.mem_cons.mp h0 with h | h
        · exact absurd h.symm hb
        · exact h
      simp [cstr, List.takeWhile_cons, hb] at ih ⊢
      exact ih h0t

/-- The C string read out of an `fgets` chunk has `'\n'` at most as its
final byte. -/
theorem cstr_takeLine_dropLast (n : Nat) (s : List Nat) :
    10 ∉ (cstr (takeLine n s)).dropLast := by
  rcases takeLine_newline_cases n s with h | ⟨l, hl, hl10⟩
  · exact fun hm => h (mem_of_mem_cstr (mem_of_mem_dropLast hm))
  · rw [hl]
    by_cases h0 : 0 ∈ l
    · rw [cstr_append_of_zero_mem _ h0]
      exact fun hm => hl10 (mem_of_mem_cstr (mem_of_mem_dropLast hm))
    · have h0' : 0 ∉ l ++ [10] := by
        intro hm
        rcases List.mem_append.mp hm with hm | hm
        · exact h0 hm
        · simp at hm
      rw [cstr_eq_self h0', List.dropLast_concat]
      exact hl10

/-- Loop invariant: when the line accumulated so far has no newline and the
chunk buffer satisfies `goodBuf`, the loop's result contains `'\n'` at most
as its final byte. -/
theorem readLineLoop_no_embedded (fuel : Nat) :
    ∀ (buf line s : List Nat), 10 ∉ line → goodBuf buf →
      10 ∉ (readLineLoop fuel buf line s).dropLast := by
  induction fuel with
  | zero =>
    intro buf line s hline _ hm
    exact hline (mem_of_mem_dropLast hm)
  | succ fuel ih =>
    intro buf line s hline hbuf
    cases s with
    | nil =>
      rw [readLineLoop_succ_nil]
      intro hm
      rcases mem_dropLast_append hm with hm | hm
      · exact hline hm
      · exact hbuf (mem_of_mem_dropLast hm)
    | cons b t =>
      set r := takeLine 127 (b :: t) with hr
      set buf1 := r ++ [0] ++ ((buf.set 126 0).drop (r.length + 1)) with hbuf1
      rw [readLineLoop_succ_eq fuel buf line (b :: t) r buf1 (by simp)
        hr.symm hbuf1.symm]
      have hcstr : cstr buf1 = cstr r := by
        rw [hbuf1, List.append_assoc]
        exact cstr_append_zero _ _
      by_cases hcond : flag buf1 ≠ 0 ∧ flag buf1 ≠ 10
      · rw [if_pos hcond]
        have hrlen : r.length = 127 := by
          by_contra hne
          have hle : r.length ≤ 127 := hr ▸ takeLine_length_le 127 (b :: t)
          exact hcond.1 (by rw [hbuf1]; exact flag_append_short buf (by omega))
        have hflagr : flag buf1 = r.getD 126 0 := by
          rw [hbuf1, List.append_assoc]
          exact flag_append_full _ hrlen
        have h10r : 10 ∉ r := by
          rcases takeLine_newline_cases 127 (b :: t) with h | ⟨l, hl, hl10⟩
          · exact hr ▸ h
          · exfalso
            have hrl : r = l ++ [10] := hr.trans hl
            have hll : l.length = 126 := by
              have := congrArg List.length hrl
              simp at this
              omega
            have hten : r.getD 126 0 = 10 := by
              rw [hrl, List.getD_eq_getElem?_getD,
                List.getElem?_append_right (by omega), hll]
              simp
            exact hcond.2 (hflagr.trans hten)
        have hline1 : 10 ∉ line ++ cstr buf1 := by
          intro hm
          rcases List.mem_append.mp hm with hm | hm
          · exact hline hm
          · rw [hcstr] at hm
            exact h10r (mem_of_mem_cstr hm)
        have hgood1 : goodBuf buf1 := by
          unfold goodBuf
          rw [hbuf1, List.append_assoc,
            List.set_append_left _ _ (by omega : (126 : Nat) < r.length),
            List.set_eq_take_cons_drop _ (by omega : (126 : Nat) < r.length)]
          have hdrop127 : r.drop (126 + 1) = [] :=
            List.drop_eq_nil_of_le (by omega)
          rw [hdrop127, List.append_assoc, List.cons_append, List.nil_append,
            cstr_append_zero]
          intro hm
          exact h10r (List.mem_of_mem_take (mem_of_mem_cstr hm))
        exact ih buf1 (line ++ cstr buf1) _ hline1 hgood1
      · rw [if_neg hcond]
        intro hm
        rcases mem_dropLast_append hm with hm | hm
        · exact hline hm
        · rw [hcstr] at hm
          exact cstr_takeLine_dropLast 127 (b :: t) (hr ▸ hm)

/-! ## Claim theorems -/

/-- C1: FALSIFIED on the code.  The split is not lossless: for the buffer
`"\na"` (non-empty, no trailing newline) `hxfile_read_lines` yields `["a"]`
because `strtok` skips the empty leading segment, and re-joining with `'\n'`
gives `"a"`, not `"\na"`. -/
theorem c1_split_not_lossless :
    readLinesSeq [10, 97] = [[97]] ∧
    List.intercalate [10] (readLinesSeq [10, 97]) ≠ [10, 97] := by decide

set_option maxRecDepth 10000 in
/-- C2: FALSIFIED on the code.  A 254-byte line (an exact multiple of the
127 data bytes per chunk) with no newline is returned as 380 bytes: the
final `fgets` call at end-of-stream reads nothing and leaves the previous
chunk in `buf`, so its first 126 bytes are appended a second time. -/
theorem c2_long_line_duplicated :
    hxfile_read_line (some (List.replicate 254 120)) =
      some (List.replicate 380 120) := by decide

/-- C3: FALSIFIED on the code.  A stream whose front byte is `0xFF` is not
at end-of-stream, yet `hxfile_read_line` returns NULL: `getc`'s result is
stored in a `char`, so byte `0xFF` compares equal to `EOF`. -/
theorem c3_byte_255_conflated_with_eof :
    hxfile_read_line (some [255]) = none := rfl

/-- C4: open failure is surfaced as NULL, but allocation failure is NOT: the
result of `malloc` is never tested, and `fread(NULL, …)`/`str[readc] = 0`
is undefined behavior, not an absent result. -/
theorem c4_alloc_failure_not_surfaced :
    (hxfile_read (some "f") (fun _ => none) true).1 = ReadResult.openFail ∧
    (hxfile_read (some "f") (fun _ => some [97]) false).1 = ReadResult.ub := by
  exact ⟨rfl, rfl⟩

/-- C5: FALSIFIED on the code.  Splitting `"a\n\nb"` yields `["a", "b"]`,
not `["a", "", "b"]`: `strtok` collapses consecutive newlines, even though
the code's own count `linec` reserves 3 line slots for this buffer. -/
theorem c5_empty_line_dropped :
    readLinesSeq [97, 10, 10, 98] = [[97], [98]] ∧
    linec [97, 10, 10, 98] = 3 := by decide

/-- C6 counterexample: on the stream `"a\n"` the returned line is `"a\n"` —
it contains the newline byte; the delimiter is not stripped. -/
theorem c6_counterexample_newline_retained :
    hxfile_read_line (some [97, 10]) = some [97, 10] ∧
    10 ∈ ([97, 10] : List Nat) := by decide

/-- C7 counterexample: the stream `"\xFF\n"` holds a newline-terminated
line, but `hxfile_read_line` returns NULL instead of the accumulated line
(byte `0xFF` is conflated with `EOF`, see C3). -/
theorem c7_counterexample_ff_line :
    hxfile_read_line (some [255, 10]) = none := rfl

/-- C6 (amended): every string returned by `hxfile_read_line` contains no
newline except possibly as its final byte; the trailing delimiter is
retained, not stripped. -/
theorem c6_no_embedded_newline (s l : List Nat)
    (h : hxfile_read_line (some s) = some l) : 10 ∉ l.dropLast := by
  cases s with
  | nil => exact absurd h (by simp [hxfile_read_line])
  | cons b t =>
    have hdef : hxfile_read_line (some (b :: t)) =
        if charOfByte b = -1 then none
        else some (readLineLoop ((b :: t).length + 1)
          (List.replicate 128 0) [] (b :: t)) := rfl
    rw [hdef] at h
    by_cases hb : charOfByte b = -1
    · rw [if_pos hb] at h
      exact absurd h (by simp)
    · rw [if_neg hb] at h
      rw [← Option.some.inj h]
      exact readLineLoop_no_embedded _ _ _ _ (by simp)
        (by unfold goodBuf; decide)

/-- Witness for C6 on the stream `"a\n"`, whose returned line is `"a\n"`. -/
theorem c6_no_embedded_newline_witness : 10 ∉ ([97, 10] : List Nat).dropLast :=
  c6_no_embedded_newline [97, 10] [97, 10] (by decide)

/-- C7 (amended): when the stream's first line ends with a newline, holds no
NUL byte, and does not begin with byte `0xFF`, `hxfile_read_line` returns
exactly that line, with the trailing newline included. -/
theorem c7_line_returned_with_newline (pre post : List Nat)
    (h10 : 10 ∉ pre) (h0 : 0 ∉ pre) (hff : pre.head? ≠ some 255) :
    hxfile_read_line (some (pre ++ 10 :: post)) = some (pre ++ [10]) := by
  have hmain := readLineLoop_newline ((pre ++ 10 :: post).length + 1) pre post
    (List.replicate 128 0) [] h10 h0 (by simp; omega)
  cases pre with
  | nil =>
    simp only [List.nil_append] at hmain ⊢
    show (if charOfByte 10 = -1 then none
      else some (readLineLoop ((10 :: post).length + 1)
        (List.replicate 128 0) [] (10 :: post))) = some [10]
    rw [if_neg (by rw [charOfByte_eq_neg_one_iff]; omega), hmain]
  | cons a t =>
    have ha : a ≠ 255 := fun he => hff (by rw [he]; rfl)
    show (if charOfByte a = -1 then none
      else some (readLineLoop (((a :: t) ++ 10 :: post).length + 1)
        (List.replicate 128 0) [] ((a :: t) ++ 10 :: post))) =
      some ((a :: t) ++ [10])
    rw [if_neg (by rw [charOfByte_eq_neg_one_iff]; exact ha), hmain]
    rfl

/-- Witness for C7 on the stream `"a\nb"`: the first call returns `"a\n"`. -/
theorem c7_line_returned_with_newline_witness :
    hxfile_read_line (some [97, 10, 98]) = some [97, 10] :=
  c7_line_returned_with_newline [97] [98] (by decide) (by decide) (by decide)

/-- C8: writing any NUL-free byte content in binary mode to a writable path
and reading it back in binary mode returns exactly that content. -/
theorem c8_write_read_roundtrip (C : List Nat) (p : String)
    (fs : String → Option (List Nat)) (writable : String → Bool)
    (hw : writable p = true) (h0 : 0 ∉ C) :
    (hxfile_write_raw (some p) (some C) writable fs).1.1 = true ∧
    (hxfile_read_raw (some p)
        (hxfile_write_raw (some p) (some C) writable fs).1.2 true).1 =
      ReadResult.ok C := by
  have hfsw : hxfile_write_raw (some p) (some C) writable fs =
      (if writable p then
        ((true, fun q => if q = p then
            some ((if ("wb" : String) = "a" ∨ ("wb" : String) = "ab"
              then (fs p).getD [] else []) ++ cstr C) else fs q),
          [FileOp.fopen p "wb", FileOp.fwrite p, FileOp.fclose p])
      else ((false, fs), [FileOp.fopen p "wb"])) := rfl
  rw [hfsw, if_pos hw,
    if_neg (show ¬(("wb" : String) = "a" ∨ ("wb" : String) = "ab") by decide)]
  refine ⟨rfl, ?_⟩
  unfold hxfile_read_raw
  rw [readModel_ok p "rb" _ C (by simp [cstr_eq_self h0])]

/-- Witness for C8 at path `"f"` with content `"ab"` over an empty
filesystem where every path is writable. -/
theorem c8_write_read_roundtrip_witness :
    (hxfile_write_raw (some "f") (some [97, 98]) (fun _ => true)
      (fun _ => none)).1.1 = true ∧
    (hxfile_read_raw (some "f")
        (hxfile_write_raw (some "f") (some [97, 98]) (fun _ => true)
          (fun _ => none)).1.2 true).1 =
      ReadResult.ok [97, 98] :=
  c8_write_read_roundtrip [97, 98] "f" (fun _ => none) (fun _ => true) rfl
    (by decide)

/-- C9: the empty buffer does split to the empty sequence, but the
trailing-line check evaluates `*(pos - 1)` before testing `pos > text`,
reading offset `-1` — one byte before the allocated buffer. -/
theorem c9_empty_buffer_oob_read :
    readLinesSeq [] = [] ∧ (-1 : Int) ∈ scanAccesses [] ∧
    ¬ idxInBounds [] (-1) := by decide

/-- C10: a NULL filepath, NULL text/data, or NULL stream makes every public
operation return its failure value (NULL or `false`) with no file operation
attempted, for every filesystem state. -/
theorem c10_null_args_fail_without_io :
    (∀ fs allocOk, hxfile_read none fs allocOk = (ReadResult.nullArg, [])) ∧
    (∀ fs allocOk,
      hxfile_read_raw none fs allocOk = (ReadResult.nullArg, [])) ∧
    (∀ w fs t, hxfile_write none t w fs = ((false, fs), [])) ∧
    (∀ w fs p, hxfile_write (some p) none w fs = ((false, fs), [])) ∧
    (∀ w fs t, hxfile_write_raw none t w fs = ((false, fs), [])) ∧
    (∀ w fs p, hxfile_write_raw (some p) none w fs = ((false, fs), [])) ∧
    (∀ w fs t, hxfile_append none t w fs = ((false, fs), [])) ∧
    (∀ w fs p, hxfile_append (some p) none w fs = ((false, fs), [])) ∧
    (∀ w fs t, hxfile_append_raw none t w fs = ((false, fs), [])) ∧
    (∀ w fs p, hxfile_append_raw (some p) none w fs = ((false, fs), [])) ∧
    hxfile_read_line none = none ∧
    (∀ fs, hxfile_read_lines none fs = (none, [])) := by
  refine ⟨?_, ?_, ?_, ?_, ?_, ?_, ?_, ?_, ?_, ?_, ?_, ?_⟩ <;>
    first
      | rfl
      | (intros; rfl)

end HxFile
